import Mathlib

/-!
Verification development for the 3D printer slicer API.

The definitions below are a shallow embedding of the JavaScript sources:
JS numbers used in exact arithmetic are modelled as rationals, machine
integers as Int or Nat, JS strings as Lean strings, and the filesystem and
subprocess side effects as explicit data threaded through the pipeline
state. Paths created and cleaned up during a slice request are tracked as
plain strings built the same way the code builds them.
-/

namespace Slicer

/-- Technology enumeration: the two supported print technologies. -/
inductive Tech where
  | FDM
  | SLA
deriving DecidableEq, Repr

/-- Numeric value of a digit character. -/
def digitVal (c : Char) : Nat := c.toNat - '0'.toNat

/-- Value of a list of digit characters read left to right, as computed by
the JS parseInt on a digit-only capture group. -/
def digitsVal (cs : List Char) : Nat :=
  cs.foldl (fun a c => a * 10 + digitVal c) 0

/-- Lowercasing of a string, modelling the JS toLowerCase on ASCII input. -/
def toLowerStr (s : String) : String := ⟨s.data.map Char.toLower⟩

/-- Uppercasing of a string, modelling the JS toUpperCase on ASCII input. -/
def toUpperStr (s : String) : String := ⟨s.data.map Char.toUpper⟩

/-- Semantics of the JS expression (opt || dflt) on string form fields:
an absent field or an empty string falls back to the default. -/
def jsOr (o : Option String) (dflt : String) : String :=
  match o with
  | none => dflt
  | some s => if s = "" then dflt else s

/-- Model of the JS parseInt(v, 10): skip leading whitespace, optional
sign, then a maximal digit run; no digit gives NaN, modelled as none. -/
def jsParseInt (o : Option String) : Option Int :=
  match o with
  | none => none
  | some s =>
    let cs := s.data.dropWhile Char.isWhitespace
    let signAndRest : Int × List Char :=
      match cs with
      | '-' :: r => (-1, r)
      | '+' :: r => (1, r)
      | _ => (1, cs)
    let ds := signAndRest.2.takeWhile Char.isDigit
    if ds.isEmpty then none else some (signAndRest.1 * (digitsVal ds : Int))

/-- Model of the JS parseFloat: skip leading whitespace, optional sign,
integer digits, optional fractional digits; NaN is modelled as none.
Exponent forms do not occur in this API and are not modelled. -/
def jsParseFloat (s : String) : Option Rat :=
  let cs := s.data.dropWhile Char.isWhitespace
  let signAndRest : Rat × List Char :=
    match cs with
    | '-' :: r => (-1, r)
    | '+' :: r => (1, r)
    | _ => (1, cs)
  let intPart := signAndRest.2.takeWhile Char.isDigit
  let rest := signAndRest.2.dropWhile Char.isDigit
  let fracPart :=
    match rest with
    | '.' :: r => r.takeWhile Char.isDigit
    | _ => []
  if intPart.isEmpty ∧ fracPart.isEmpty then none
  else
    some (signAndRest.1 *
      ((digitsVal intPart : Rat) + (digitsVal fracPart : Rat) / ((10 : Rat) ^ fracPart.length)))

/-- One-pass scanner for the JS regex of shape (\d+)c applied by match:
walks the characters keeping the value of the current digit run, and
returns the run value at the first position where a digit run is
immediately followed by the unit character c. -/
def findUnitGo (c : Char) : Option Nat → List Char → Option Nat
  | _, [] => none
  | run, x :: xs =>
    if x.isDigit then findUnitGo c (some ((run.getD 0) * 10 + digitVal x)) xs
    else if x = c ∧ run ≠ none then run
    else findUnitGo c none xs

/-- First capture of the regex (\d+)c in a string, as an optional value. -/
def findUnit (c : Char) (cs : List Char) : Option Nat := findUnitGo c none cs

/-- Embedding of parseTimeString from slice.service.js: a bare integer is
seconds, otherwise the d, h, m, s unit captures are summed. -/
def parseTimeString (s : String) : Nat :=
  let cs := s.data
  if cs.all Char.isDigit ∧ cs ≠ [] then digitsVal cs
  else
    (findUnit 'd' cs).getD 0 * 86400 + (findUnit 'h' cs).getD 0 * 3600 +
      (findUnit 'm' cs).getD 0 * 60 + (findUnit 's' cs).getD 0

example : parseTimeString "1h 30m" = 5400 := by decide
example : parseTimeString "90" = 90 := by decide
example : parseTimeString "1d 2h 3m 4s" = 93784 := by decide

/-- Model of path.extname: the extension of the basename after the last
dot, empty when there is no dot or when the dot is the leading character
of the basename. -/
def extnameJs (name : String) : String :=
  let base := (name.data.reverse.takeWhile (· ≠ '/')).reverse
  if base.contains '.' then
    let afterRev := base.reverse.takeWhile (· ≠ '.')
    if afterRev.length + 1 = base.length then ""
    else ⟨'.' :: afterRev.reverse⟩
  else ""

/-- Model of path.dirname: the part before the last slash, or a dot when
there is no slash. -/
def dirnameJs (name : String) : String :=
  if name.data.contains '/' then
    ⟨(name.data.reverse.dropWhile (· ≠ '/')).reverse.dropLast⟩
  else "."

/-- Split a character list at the first occurrence of the pattern,
returning the part before the match and the part after it. -/
def firstSplit (pat : List Char) : List Char → Option (List Char × List Char)
  | [] => if pat.isPrefixOf ([] : List Char) then some ([], []) else none
  | x :: xs =>
    if pat.isPrefixOf (x :: xs) then some ([], (x :: xs).drop pat.length)
    else (firstSplit pat xs).map (fun p => (x :: p.1, p.2))

/-- Model of the JS String.replace with a string pattern: replaces the
first occurrence only, returns the string unchanged when absent. -/
def replaceFirst (s pat rep : String) : String :=
  match firstSplit pat.data s.data with
  | none => s
  | some p => ⟨p.1 ++ rep.data ++ p.2⟩

example : replaceFirst "input/a.stl" ".stl" "_oriented.stl" = "input/a_oriented.stl" := by decide
example : extnameJs "input/model.STL" = ".STL" := by decide
example : extnameJs "archive.zip" = ".zip" := by decide
example : extnameJs "noext" = "" := by decide

/-! Pricing registry, from pricing.service.js. A JS object with string
keys is modelled as an association list that preserves insertion order;
setting an existing key updates it in place and setting a fresh key
appends, matching JS object key order. All rate values are rationals, so
the Number.isFinite guard of the source is always true in the model. -/

/-- Ordered association list of material keys to hourly rates. -/
abbrev RateMap := List (String × Rat)

/-- Pricing state: one rate map per technology. -/
structure Pricing where
  fdm : RateMap
  sla : RateMap
deriving Repr, DecidableEq

/-- Rate map of the given technology. -/
def Pricing.tech (p : Pricing) : Tech → RateMap
  | Tech.FDM => p.fdm
  | Tech.SLA => p.sla

/-- Replacement of the rate map of the given technology. -/
def Pricing.setTech (p : Pricing) : Tech → RateMap → Pricing
  | Tech.FDM, m => { p with fdm := m }
  | Tech.SLA, m => { p with sla := m }

/-- The DEFAULT_PRICING constant of pricing.service.js. -/
def DEFAULT_PRICING : Pricing :=
  { fdm := [("PLA", 800), ("ABS", 800), ("PETG", 900), ("TPU", 900)]
    sla := [("Standard", 1800), ("ABS-Like", 1800), ("Flexible", 2400)] }

/-- Exact key lookup in a rate map, modelling Object.hasOwn plus read. -/
def lookupExact (m : RateMap) (k : String) : Option Rat :=
  (m.find? (fun kv => kv.1 = k)).map (fun kv => kv.2)

/-- First finite positive value in insertion order, modelling the
Array.find over Object.values with the isFinite and positivity test. -/
def firstPosRate (vs : List Rat) : Option Rat :=
  vs.find? (fun v => 0 < v)

/-- Embedding of getRate from pricing.service.js: exact stored key first,
then the first finite positive rate of the technology, then the first
finite positive default rate, then zero. -/
def getRate (p : Pricing) (technology : Tech) (material : String) : Rat :=
  let techPricing := p.tech technology
  match lookupExact techPricing material with
  | some v => v
  | none =>
    match firstPosRate (techPricing.map (fun kv => kv.2)) with
    | some v => v
    | none => (firstPosRate ((DEFAULT_PRICING.tech technology).map (fun kv => kv.2))).getD 0

/-- Embedding of normalizeTechnology from pricing.service.js. -/
def normalizeTechnology (value : String) : Option Tech :=
  let normalized := toUpperStr value
  if normalized = "FDM" then some Tech.FDM
  else if normalized = "SLA" then some Tech.SLA
  else none

/-- Embedding of findMaterialKey: resolves the stored key whose lowercase
form equals the lowercase requested material. -/
def findMaterialKey (p : Pricing) (technology : Tech) (materialParam : String) : Option String :=
  let requested := toLowerStr materialParam
  ((p.tech technology).find? (fun kv => toLowerStr kv.1 = requested)).map (fun kv => kv.1)

/-- JS object property write: update the exact key in place when present,
append otherwise. -/
def setKey (m : RateMap) (k : String) (v : Rat) : RateMap :=
  if m.any (fun kv => kv.1 = k) then
    m.map (fun kv => if kv.1 = k then (k, v) else kv)
  else m ++ [(k, v)]

/-- Embedding of updateMaterialPrice: writes through the canonical stored
key when one exists, the raw parameter otherwise; returns the key used. -/
def updateMaterialPrice (p : Pricing) (technology : Tech) (materialParam : String)
    (price : Rat) : Pricing × String :=
  let materialKey := (findMaterialKey p technology materialParam).getD materialParam
  (p.setTech technology (setKey (p.tech technology) materialKey price), materialKey)

/-- Embedding of removeMaterial: the JS delete of the exact key. -/
def removeMaterial (p : Pricing) (technology : Tech) (materialKey : String) : Pricing :=
  p.setTech technology ((p.tech technology).filter (fun kv => kv.1 ≠ materialKey))

/-! Estimator, from processSlice lines 362 to 366 of slice.service.js. -/

/-- Computable ceiling on rationals, modelling Math.ceil on exact values. -/
def ratCeil (q : Rat) : Int := -(Rat.floor (-q))

/-- The computable ceiling agrees with the Mathlib ceiling. -/
theorem ratCeil_eq (q : Rat) : ratCeil q = ⌈q⌉ := by
  have h : Rat.floor (-q) = ⌊-q⌋ := (Rat.floor_def' (-q)).trans Rat.floor_def.symm
  rw [ratCeil, h, ← Int.ceil_neg, neg_neg]

/-- Billable hours: print seconds over 3600 with the 15 minute floor. -/
def calcHours (printTimeSeconds : Int) : Rat :=
  max ((printTimeSeconds : Rat) / 3600) (1 / 4)

/-- Estimated price: billable hours times hourly rate, snapped up to the
next multiple of 10 by Math.ceil on the tenth. -/
def totalPriceHuf (printTimeSeconds : Int) (hourlyRate : Rat) : Int :=
  ratCeil (calcHours printTimeSeconds * hourlyRate / 10) * 10

example : totalPriceHuf 5400 900 = 1350 := by with_unfolding_all rfl
example : totalPriceHuf 1990 1800 = 1000 := by with_unfolding_all rfl
example : totalPriceHuf 0 800 = 200 := by with_unfolding_all rfl

/-! Print statistics parsing, from parseOutputDetailed of slice.service.js.
The regex scan of the generated gcode text is external data, so the three
capture results are passed in as an explicit record. -/

/-- Normalized print statistics record built by parseOutputDetailed. -/
structure PrintStats where
  printTimeSeconds : Int
  printTimeReadable : String
  materialUsedM : Rat
  objectHeightMm : Rat
  estimatedPriceHuf : Int
deriving Repr, DecidableEq

/-- Capture results of the three regexes applied to the FDM gcode text:
the first M73 P0 R minutes value, the estimated printing time expression,
and the filament used millimeters value. -/
structure FdmScan where
  m73Minutes : Option Nat
  estTimeExpr : Option String
  filamentMm : Option Rat
deriving Repr, DecidableEq

/-- Embedding of parseOutputDetailed: FDM reads the scan of the artifact
when it exists, SLA estimates from object height and layer height, and a
positive seconds value is rendered as hours and minutes with the SLA
suffix. -/
def parseOutputDetailed (technology : Tech) (outputExists : Bool) (scan : FdmScan)
    (layerHeight : Rat) (knownHeight : Rat) : PrintStats :=
  let base : PrintStats :=
    { printTimeSeconds := 0, printTimeReadable := "Unknown", materialUsedM := 0
      objectHeightMm := knownHeight, estimatedPriceHuf := 0 }
  let afterFdm : PrintStats :=
    if technology = Tech.FDM ∧ outputExists then
      let s1 : Int := match scan.m73Minutes with
        | some r => (r : Int) * 60
        | none => 0
      let withTime : Int × String :=
        if s1 = 0 then
          match scan.estTimeExpr with
          | some t => let tr := t.trim; ((parseTimeString tr : Int), tr)
          | none => (s1, base.printTimeReadable)
        else (s1, base.printTimeReadable)
      let mat : Rat := match scan.filamentMm with
        | some f => f / 1000
        | none => base.materialUsedM
      { base with
          printTimeSeconds := withTime.1
          printTimeReadable := withTime.2
          materialUsedM := mat }
    else base
  let afterSla : PrintStats :=
    if technology = Tech.SLA ∧ afterFdm.printTimeSeconds = 0 ∧ 0 < afterFdm.objectHeightMm then
      let totalLayers : Int := ratCeil (afterFdm.objectHeightMm / max layerHeight 0.025)
      { afterFdm with printTimeSeconds := 120 + totalLayers * 11 }
    else afterFdm
  if 0 < afterSla.printTimeSeconds then
    let h := Int.fdiv afterSla.printTimeSeconds 3600
    let m := Int.fdiv (Int.tmod afterSla.printTimeSeconds 3600) 60
    let readable : String :=
      toString h ++ "h " ++ toString m ++ "m " ++
        (if technology = Tech.SLA then "(Est.)" else "")
    { afterSla with printTimeReadable := readable }
  else afterSla

example :
    (parseOutputDetailed Tech.SLA false ⟨none, none, none⟩ 0.05 8.5).printTimeSeconds = 1990 := by
  with_unfolding_all rfl

example :
    (parseOutputDetailed Tech.SLA false ⟨none, none, none⟩ 0.05 8.5).printTimeReadable
      = "0h 33m (Est.)" := by
  with_unfolding_all rfl

/-! Rate limiter, from middleware/rateLimit.js. The bucket map is an
association list with JS Map semantics: set on an existing key updates it
in place, set on a fresh key appends. -/

/-- Limiter configuration: window length in milliseconds and the maximum
number of requests admitted per window. -/
structure RlConfig where
  windowMs : Int
  maxRequests : Nat
deriving Repr, DecidableEq

/-- Per IP bucket: request count in the current window and its reset
timestamp. -/
structure Bucket where
  count : Nat
  resetAt : Int
deriving Repr, DecidableEq

/-- The bucket map keyed by client IP. -/
abbrev RlState := List (String × Bucket)

/-- Lookup of the bucket of an IP, modelling Map.get. -/
def getBucket : RlState → String → Option Bucket
  | [], _ => none
  | kv :: rest, ip => if kv.1 = ip then some kv.2 else getBucket rest ip

/-- Write of the bucket of an IP, modelling Map.set. -/
def setBucket : RlState → String → Bucket → RlState
  | [], ip, b => [(ip, b)]
  | kv :: rest, ip, b => if kv.1 = ip then (ip, b) :: rest else kv :: setBucket rest ip b

/-- Outcome of one limiter invocation: pass to the handler or reject with
the computed Retry-After seconds. -/
inductive RlDecision where
  | pass
  | deny (retryAfterSeconds : Int)
deriving Repr, DecidableEq

/-- Embedding of the ipRateLimiter closure body: fresh or expired buckets
admit and reset, a full live bucket denies with the clamped ceiling of the
remaining window seconds, and otherwise the count increments. -/
def rlStep (cfg : RlConfig) (st : RlState) (now : Int) (ip : String) : RlDecision × RlState :=
  match getBucket st ip with
  | none => (RlDecision.pass, setBucket st ip ⟨1, now + cfg.windowMs⟩)
  | some current =>
    if current.resetAt < now then
      (RlDecision.pass, setBucket st ip ⟨1, now + cfg.windowMs⟩)
    else if cfg.maxRequests ≤ current.count then
      (RlDecision.deny (max 1 (ratCeil (((current.resetAt - now : Int) : Rat) / 1000))), st)
    else (RlDecision.pass, setBucket st ip ⟨current.count + 1, current.resetAt⟩)

/-- Wire shape of a denial, from the 429 branch of the middleware. -/
structure RlResponse where
  status : Nat
  errorCode : String
  retryAfterSeconds : Int
  retryAfterHeader : String
deriving Repr, DecidableEq

/-- Response sent on denial: 429, the rate limit error code, and the
Retry-After header rendering the same seconds value. -/
def denyResponse (retryAfterSeconds : Int) : RlResponse :=
  { status := 429, errorCode := "RATE_LIMIT_EXCEEDED"
    retryAfterSeconds := retryAfterSeconds, retryAfterHeader := toString retryAfterSeconds }

/-- Process a list of timestamped requests through the limiter. -/
def rlRun (cfg : RlConfig) (st : RlState) : List (Int × String) → List RlDecision × RlState
  | [] => ([], st)
  | (now, ip) :: es =>
    let p := rlStep cfg st now ip
    let r := rlRun cfg p.2 es
    (p.1 :: r.1, r.2)

/-- Event times are non-decreasing starting from the given time. -/
def Chrono : Int → List (Int × String) → Prop
  | _, [] => True
  | t, (n, _) :: es => t ≤ n ∧ Chrono n es

/-- Number of admitted requests of the given IP with event time at most
the deadline, along a run of the limiter. -/
def admittedLE (cfg : RlConfig) (st : RlState) (ip : String) (deadline : Int) :
    List (Int × String) → Nat
  | [] => 0
  | (now, i) :: es =>
    let p := rlStep cfg st now i
    (if p.1 = RlDecision.pass ∧ i = ip ∧ now ≤ deadline then 1 else 0) +
      admittedLE cfg p.2 ip deadline es

/-! Zip archive guard. Modelled from the spec: the zip bomb guard named
by the README and by the archive branch of the specification is not part
of the source snapshot, only its caller, the zip extraction block of
processSlice, is. The guard validates the archive before any extraction
starts. -/

/-- One archive entry as listed before extraction. -/
structure ZipEntry where
  name : String
  uncompressedBytes : Nat
deriving Repr, DecidableEq

/-- An uploaded archive: encryption flag and the entry listing. -/
structure ZipArchive where
  encrypted : Bool
  entries : List ZipEntry
deriving Repr, DecidableEq

/-- Configured archive limits. -/
structure ZipLimits where
  maxZipEntries : Nat
  maxZipUncompressedBytes : Nat
deriving Repr, DecidableEq

/-- Cumulative uncompressed size of the archive. -/
def zipTotalUncompressed (a : ZipArchive) : Nat :=
  (a.entries.map (fun e => e.uncompressedBytes)).sum

/-- Modelled from the spec: reject when the archive is encrypted, has more
entries than allowed, or exceeds the cumulative uncompressed size limit. -/
def zipGuardRejects (lim : ZipLimits) (a : ZipArchive) : Bool :=
  a.encrypted || decide (lim.maxZipEntries < a.entries.length) ||
    decide (lim.maxZipUncompressedBytes < zipTotalUncompressed a)

/-- Outcome of the guarded intake: the status written and whether the
extraction step was ever started. -/
structure ZipOutcome where
  status : Nat
  extractionStarted : Bool
deriving Repr, DecidableEq

/-- Modelled from the spec: the guarded intake rejects with a client
error before extraction begins, and extracts otherwise. -/
def zipIntake (lim : ZipLimits) (a : ZipArchive) : ZipOutcome :=
  if zipGuardRejects lim a then { status := 400, extractionStarted := false }
  else { status := 200, extractionStarted := true }

/-! Slicing pipeline, from processSlice of slice.service.js. Subprocess
outcomes, directory listings and regex scans of external text are inputs
of the model, collected in SliceEnv. Filesystem paths are the strings the
code builds; the extraction directory stands for itself and its contents,
since it is removed recursively. -/

/-- Extension groups from config/constants.js. -/
def EXTENSIONS_direct : List String := [".stl", ".obj", ".3mf"]

/-- CAD extensions from config/constants.js. -/
def EXTENSIONS_cad : List String := [".stp", ".step", ".igs", ".iges"]

/-- Image extensions from config/constants.js. -/
def EXTENSIONS_image : List String := [".png", ".jpg", ".jpeg", ".bmp"]

/-- Vector extensions from config/constants.js. -/
def EXTENSIONS_vector : List String := [".dxf", ".svg", ".eps", ".pdf"]

/-- Extensions accepted when picking a file out of an extracted archive,
the set union built in the zip branch of processSlice. -/
def supportedZipExts : List String :=
  EXTENSIONS_direct ++ EXTENSIONS_cad ++ EXTENSIONS_image ++ EXTENSIONS_vector

/-- Mesh extensions converted by mesh2stl, the literal list in the
dispatch of processSlice. -/
def meshExts : List String := [".obj", ".3mf", ".ply"]

/-- Build volume limits in millimeters. -/
structure BuildVolume where
  x : Rat
  y : Rat
  z : Rat
deriving Repr, DecidableEq

/-- The MAX_BUILD_VOLUMES constant of config/constants.js. -/
def MAX_BUILD_VOLUMES : Tech → BuildVolume
  | Tech.FDM => { x := 250, y := 210, z := 210 }
  | Tech.SLA => { x := 120, y := 120, z := 150 }

/-- Embedding of normalizeLayerHeight composed with the caller side
default: parseFloat of the raw field or the 0.2 fallback, null when the
result is not a positive finite number. -/
def normalizeLayerHeight (raw : Option String) : Option Rat :=
  match jsParseFloat (jsOr raw "0.2") with
  | none => none
  | some parsed => if parsed ≤ 0 then none else some parsed

/-- Embedding of validateLayerHeightForTechnology: membership in the
technology specific allowed set up to the 1e-9 tolerance. -/
def validateLayerHeightForTechnology (technology : Tech) (layerHeight : Rat) : Bool :=
  let allowed : List Rat := if technology = Tech.SLA then [0.025, 0.05] else [0.1, 0.2, 0.3]
  allowed.any (fun value => decide (|value - layerHeight| < 1 / 1000000000))

/-- External outcomes of one slice request: subprocess results, the
directory listing of the extracted archive, the measured dimensions, the
gcode scan, the pricing state and the timestamp rendering used in
generated names. -/
structure SliceEnv where
  unzipOk : Bool
  unzipGeomClass : Bool
  zipFiles : List String
  convertOk : Bool
  convertGeomClass : Bool
  orientOk : Bool
  orientedExists : Bool
  infoOk : Bool
  infoX : Rat
  infoY : Rat
  infoZ : Rat
  configExists : Bool
  sliceOk : Bool
  sliceGeomClass : Bool
  outputExists : Bool
  scan : FdmScan
  pricing : Pricing
  stamp : String
deriving Repr

/-- One multipart slice request: upload presence, the multer temp path,
the original client file name, and the form fields used by the pipeline. -/
structure SliceRequest where
  hasFile : Bool
  filePath : String
  originalName : String
  layerHeight : Option String
  material : Option String
  infill : Option String
deriving Repr

/-- JSON response written by the handler; option fields are absent keys. -/
structure SliceResponse where
  status : Nat
  success : Option Bool
  errorCode : Option String
  technology : Option Tech
  material : Option String
  infill : Option String
  hourlyRate : Option Rat
  stats : Option PrintStats
  downloadUrl : Option String
deriving Repr

/-- Error thrown inside the try block of processSlice: the build volume
rejection, a failed subprocess together with the outcome of the
isSourceGeometryError classification of its message, the archive without
a supported entry, and the missing profile file. -/
inductive PipeErr where
  | tooLarge (x y z : Rat) (technology : Tech)
  | cmdFailed (geomClass : Bool)
  | zipNoSupported
  | missingConfig
deriving Repr, DecidableEq

/-- Bookkeeping threaded through the try block: paths created on disk,
the cleanup list, whether the slicer export run was started, and the
measured dimensions when the info step was reached. -/
structure PipeSt where
  created : List String
  cleanup : List String
  exportLaunched : Bool
  measured : Option (Rat × Rat × Rat)
deriving Repr

/-- Archive branch of the try block: extraction into the fresh directory
and selection of the first supported entry. -/
def zipStage (env : SliceEnv) (inputFile : String) (st0 : PipeSt) :
    PipeSt × Except PipeErr (String × String) :=
  if toLowerStr (extnameJs inputFile) = ".zip" then
    let unzipDir := dirnameJs inputFile ++ "/unzip_" ++ env.stamp
    let st1 := { st0 with
      created := st0.created ++ [unzipDir], cleanup := st0.cleanup ++ [unzipDir] }
    if env.unzipOk then
      match env.zipFiles.find? (fun f => supportedZipExts.contains (toLowerStr (extnameJs f))) with
      | none => (st1, Except.error PipeErr.zipNoSupported)
      | some foundFile =>
        let processable := unzipDir ++ "/" ++ foundFile
        (st1, Except.ok (processable, toLowerStr (extnameJs processable)))
    else (st1, Except.error (PipeErr.cmdFailed env.unzipGeomClass))
  else (st0, Except.ok (inputFile, toLowerStr (extnameJs inputFile)))

/-- Conversion dispatch of the try block: image, vector, mesh and CAD
inputs are converted to a sibling stl file, stl and unknown extensions
pass through. -/
def convertStage (env : SliceEnv) (processable ext : String) (st1 : PipeSt) :
    PipeSt × Except PipeErr String :=
  if EXTENSIONS_image.contains ext ∨ EXTENSIONS_vector.contains ext ∨
      meshExts.contains ext ∨ EXTENSIONS_cad.contains ext then
    let finalStl := processable ++ ".stl"
    let st2 := { st1 with cleanup := st1.cleanup ++ [finalStl] }
    if env.convertOk then
      ({ st2 with created := st2.created ++ [finalStl] }, Except.ok finalStl)
    else (st2, Except.error (PipeErr.cmdFailed env.convertGeomClass))
  else (st1, Except.ok processable)

/-- Orientation stage of the try block: best effort, the oriented file is
used only when the optimizer succeeded and its output exists. -/
def orientStage (env : SliceEnv) (finalStl : String) (st2 : PipeSt) : PipeSt × String :=
  let orientedStl := replaceFirst finalStl ".stl" "_oriented.stl"
  let st3 := if env.orientedExists then
      { st2 with created := st2.created ++ [orientedStl] }
    else st2
  if env.orientOk ∧ env.orientedExists then
    ({ st3 with cleanup := st3.cleanup ++ [orientedStl] }, orientedStl)
  else (st3, finalStl)

/-- Archive extraction, format conversion and orientation stages of the
try block: produces the processable mesh path. -/
def acquireMesh (env : SliceEnv) (inputFile : String) (st0 : PipeSt) :
    PipeSt × Except PipeErr String :=
  match zipStage env inputFile st0 with
  | (st1, Except.error e) => (st1, Except.error e)
  | (st1, Except.ok (processable, ext)) =>
    match convertStage env processable ext st1 with
    | (st2, Except.error e) => (st2, Except.error e)
    | (st2, Except.ok finalStl) =>
      let oriented := orientStage env finalStl st2
      (oriented.1, Except.ok oriented.2)

/-- Model dimensions read by getModelInfo: the parsed triple when the
info run succeeded, zeros otherwise. -/
def getModelInfo (env : SliceEnv) : Rat × Rat × Rat :=
  if env.infoOk then (env.infoX, env.infoY, env.infoZ) else (0, 0, 0)

/-- Name of the slicer output artifact. -/
def outputName (env : SliceEnv) (technology : Tech) : String :=
  "output-" ++ env.stamp ++ "." ++ (if technology = Tech.SLA then "sl1" else "gcode")

/-- Measurement, build volume validation, slicing and parsing stages of
the try block: produces the print statistics and the output name. -/
def measureAndSlice (env : SliceEnv) (technology : Tech) (layerHeight : Rat)
    (processableFile : String) (st0 : PipeSt) :
    PipeSt × Except PipeErr (PrintStats × String × String) :=
  let _ := processableFile
  if (MAX_BUILD_VOLUMES technology).x < (getModelInfo env).1 ∨
      (MAX_BUILD_VOLUMES technology).y < (getModelInfo env).2.1 ∨
      (MAX_BUILD_VOLUMES technology).z < (getModelInfo env).2.2 then
    ({ st0 with measured := some (getModelInfo env) },
      Except.error (PipeErr.tooLarge (getModelInfo env).1 (getModelInfo env).2.1
        (getModelInfo env).2.2 technology))
  else if env.configExists then
    if env.sliceOk then
      ({ st0 with measured := some (getModelInfo env), exportLaunched := true
                  created := st0.created ++ ["output/" ++ outputName env technology] },
        Except.ok (parseOutputDetailed technology env.outputExists env.scan layerHeight
            (getModelInfo env).2.2,
          outputName env technology, "output/" ++ outputName env technology))
    else
      ({ st0 with measured := some (getModelInfo env), exportLaunched := true },
        Except.error (PipeErr.cmdFailed env.sliceGeomClass))
  else
    ({ st0 with measured := some (getModelInfo env) }, Except.error PipeErr.missingConfig)

/-- Complete result of one slice request: the JSON response plus the
observable side effects the claims quantify over. -/
structure SliceResult where
  resp : SliceResponse
  technology : Option Tech
  exportLaunched : Bool
  measured : Option (Rat × Rat × Rat)
  created : List String
  cleanupList : List String
  cleanupRan : Bool
  remaining : List String
deriving Repr

/-- Files still on disk after cleanupFiles removed every cleanup list
entry; without cleanup everything created remains. -/
def remainingAfter (created cleanup : List String) (ran : Bool) : List String :=
  if ran then created.filter (fun p => ¬ cleanup.contains p) else created

/-- The whole try block of processSlice: mesh acquisition followed by
measurement, validation, slicing and parsing. -/
def runBody (env : SliceEnv) (technology : Tech) (layerHeight : Rat)
    (inputFile : String) (st0 : PipeSt) :
    PipeSt × Except PipeErr (PrintStats × String × String) :=
  match acquireMesh env inputFile st0 with
  | (st1, Except.error e) => (st1, Except.error e)
  | (st1, Except.ok processable) =>
    measureAndSlice env technology layerHeight processable st1

/-- Final part of processSlice: runs cleanup, then writes either the
success envelope or the catch classification of the thrown error. -/
def finishSlice (pricing : Pricing) (technology : Tech) (material : String)
    (infillPercentage : String)
    (body : PipeSt × Except PipeErr (PrintStats × String × String)) : SliceResult :=
  match body with
  | (stF, Except.ok (stats, outputFilename, _outputPath)) =>
    let hourlyRate := getRate pricing technology material
    let totalPrice := totalPriceHuf stats.printTimeSeconds hourlyRate
    { resp := { status := 200, success := some true, errorCode := none
                technology := some technology, material := some material
                infill := some infillPercentage, hourlyRate := some hourlyRate
                stats := some { stats with estimatedPriceHuf := totalPrice }
                downloadUrl := some ("/download/" ++ outputFilename) }
      technology := some technology, exportLaunched := stF.exportLaunched
      measured := stF.measured, created := stF.created
      cleanupList := stF.cleanup, cleanupRan := true
      remaining := remainingAfter stF.created stF.cleanup true }
  | (stF, Except.error e) =>
    let errResp : SliceResponse :=
      match e with
      | PipeErr.tooLarge _ _ _ _ =>
        { status := 400, success := some false
          errorCode := some "MODEL_EXCEEDS_BUILD_VOLUME", technology := none
          material := none, infill := none, hourlyRate := none
          stats := none, downloadUrl := none }
      | PipeErr.cmdFailed geomClass =>
        if geomClass then
          { status := 400, success := some false
            errorCode := some "INVALID_SOURCE_GEOMETRY", technology := none
            material := none, infill := none, hourlyRate := none
            stats := none, downloadUrl := none }
        else
          { status := 500, success := some false
            errorCode := some "INTERNAL_PROCESSING_ERROR", technology := none
            material := none, infill := none, hourlyRate := none
            stats := none, downloadUrl := none }
      | PipeErr.zipNoSupported =>
        { status := 500, success := some false
          errorCode := some "INTERNAL_PROCESSING_ERROR", technology := none
          material := none, infill := none, hourlyRate := none
          stats := none, downloadUrl := none }
      | PipeErr.missingConfig =>
        { status := 500, success := some false
          errorCode := some "INTERNAL_PROCESSING_ERROR", technology := none
          material := none, infill := none, hourlyRate := none
          stats := none, downloadUrl := none }
    { resp := errResp
      technology := some technology, exportLaunched := stF.exportLaunched
      measured := stF.measured, created := stF.created
      cleanupList := stF.cleanup, cleanupRan := true
      remaining := remainingAfter stF.created stF.cleanup true }

/-- Embedding of processSlice: field parsing and validation, the try
block stages, the catch classification, cleanup bookkeeping and the
response envelope. -/
def processSlice (req : SliceRequest) (forcedTechnology : Option Tech)
    (env : SliceEnv) : SliceResult :=
  if req.hasFile then
    let originalName := toLowerStr req.originalName
    let originalExt := extnameJs originalName
    let inputFile := req.filePath ++ originalExt
    let created0 := [inputFile]
    let cleanup0 := [inputFile]
    match normalizeLayerHeight req.layerHeight with
    | none =>
      { resp := { status := 400, success := some false
                  errorCode := some "INVALID_LAYER_HEIGHT", technology := none
                  material := none, infill := none, hourlyRate := none
                  stats := none, downloadUrl := none }
        technology := none, exportLaunched := false, measured := none
        created := created0, cleanupList := cleanup0, cleanupRan := false
        remaining := remainingAfter created0 cleanup0 false }
    | some layerHeight =>
      let material := jsOr req.material "PLA"
      let infillRaw : Int := match jsParseInt req.infill with
        | none => 20
        | some v => v
      let infillClamped : Int := max 0 (min 100 infillRaw)
      let infillPercentage := toString infillClamped ++ "%"
      let technology := forcedTechnology.getD (if layerHeight ≤ 0.05 then Tech.SLA else Tech.FDM)
      if forcedTechnology.isSome ∧ validateLayerHeightForTechnology technology layerHeight = false then
        { resp := { status := 400, success := some false
                    errorCode := some "INVALID_LAYER_HEIGHT_FOR_TECHNOLOGY", technology := none
                    material := none, infill := none, hourlyRate := none
                    stats := none, downloadUrl := none }
          technology := some technology, exportLaunched := false, measured := none
          created := created0, cleanupList := cleanup0, cleanupRan := false
          remaining := remainingAfter created0 cleanup0 false }
      else
        let st0 : PipeSt :=
          { created := created0, cleanup := cleanup0
            exportLaunched := false, measured := none }
        finishSlice env.pricing technology material infillPercentage
          (runBody env technology layerHeight inputFile st0)
  else
    { resp := { status := 400, success := none, errorCode := none, technology := none
                material := none, infill := none, hourlyRate := none
                stats := none, downloadUrl := none }
      technology := none, exportLaunched := false, measured := none
      created := [], cleanupList := [], cleanupRan := false, remaining := [] }

/-! Pricing delete route, from the DELETE /pricing handler of the pricing
routes module. Persistence success is an input of the model. -/

/-- Response of the delete route: status, success flag, and the canonical
material key echoed on success. -/
structure DeleteResponse where
  status : Nat
  success : Bool
  material : Option String
deriving Repr, DecidableEq

/-- Embedding of the DELETE /pricing/:technology/:material handler:
technology normalization, empty material rejection, 404 when the material
key does not resolve, removal, persistence, and the 200 echo. -/
def deleteMaterialRoute (p : Pricing) (persistOk : Bool)
    (technologyParam materialParam : String) : DeleteResponse × Pricing :=
  match normalizeTechnology technologyParam with
  | none => ({ status := 400, success := false, material := none }, p)
  | some technology =>
    let materialTrimmed := materialParam.trim
    if materialTrimmed = "" then
      ({ status := 400, success := false, material := none }, p)
    else
      match findMaterialKey p technology materialTrimmed with
      | none => ({ status := 404, success := false, material := none }, p)
      | some materialKey =>
        let p2 := removeMaterial p technology materialKey
        if persistOk then
          ({ status := 200, success := true, material := some materialKey }, p2)
        else ({ status := 500, success := false, material := none }, p2)

/-! Concrete sample inputs used by witnesses and counterexamples. -/

/-- Benign environment: every subprocess succeeds, the model fits the
build volume, and the gcode carries the estimated time comment of the
happy path scenario. -/
def sampleEnv : SliceEnv :=
  { unzipOk := true, unzipGeomClass := false, zipFiles := []
    convertOk := true, convertGeomClass := false
    orientOk := true, orientedExists := true
    infoOk := true, infoX := 100, infoY := 100, infoZ := 50
    configExists := true, sliceOk := true, sliceGeomClass := false
    outputExists := true
    scan := { m73Minutes := none, estTimeExpr := some "1h 30m", filamentMm := some 12450 }
    pricing := DEFAULT_PRICING, stamp := "1700000000000" }

/-- Environment whose measured model height exceeds the FDM build volume. -/
def oversizeEnv : SliceEnv :=
  { sampleEnv with infoZ := 300 }

/-- Well formed FDM request of the happy path scenario. -/
def sampleReq : SliceRequest :=
  { hasFile := true, filePath := "input/u1", originalName := "Model.STL"
    layerHeight := some "0.2", material := some "PETG", infill := some "20" }

/-- Request whose layerHeight field parses to zero and is rejected by the
early validation. -/
def sampleReqBadLayer : SliceRequest :=
  { hasFile := true, filePath := "input/u2", originalName := "Model.STL"
    layerHeight := some "0", material := none, infill := none }

/-- Request with no material and no infill field. -/
def sampleReqDefaults : SliceRequest :=
  { hasFile := true, filePath := "input/u3", originalName := "part.stl"
    layerHeight := some "0.2", material := none, infill := none }

/-- Archive with two hundred thousand entries. -/
def bombArchive : ZipArchive :=
  { encrypted := false
    entries := List.replicate 200000 { name := "f.bin", uncompressedBytes := 1 } }

/-- Sample archive limits. -/
def sampleZipLimits : ZipLimits :=
  { maxZipEntries := 4096, maxZipUncompressedBytes := 1073741824 }

/-! Theorems. -/

/-- The archive stage never starts the slicer export and never records
measured dimensions. -/
theorem zipStage_preserves (env : SliceEnv) (inputFile : String) (st : PipeSt) :
    (zipStage env inputFile st).1.exportLaunched = st.exportLaunched ∧
    (zipStage env inputFile st).1.measured = st.measured := by
  unfold zipStage
  dsimp only
  repeat' split
  all_goals exact ⟨rfl, rfl⟩

/-- The conversion stage never starts the slicer export and never records
measured dimensions. -/
theorem convertStage_preserves (env : SliceEnv) (processable ext : String) (st : PipeSt) :
    (convertStage env processable ext st).1.exportLaunched = st.exportLaunched ∧
    (convertStage env processable ext st).1.measured = st.measured := by
  unfold convertStage
  dsimp only
  repeat' split
  all_goals exact ⟨rfl, rfl⟩

/-- The orientation stage never starts the slicer export and never
records measured dimensions. -/
theorem orientStage_preserves (env : SliceEnv) (finalStl : String) (st : PipeSt) :
    (orientStage env finalStl st).1.exportLaunched = st.exportLaunched ∧
    (orientStage env finalStl st).1.measured = st.measured := by
  unfold orientStage
  dsimp only
  repeat' split
  all_goals exact ⟨rfl, rfl⟩

/-- The archive, conversion and orientation stages never start the slicer
export and never record measured dimensions. -/
theorem acquireMesh_preserves (env : SliceEnv) (inputFile : String) (st : PipeSt) :
    (acquireMesh env inputFile st).1.exportLaunched = st.exportLaunched ∧
    (acquireMesh env inputFile st).1.measured = st.measured := by
  unfold acquireMesh
  rcases hz : zipStage env inputFile st with ⟨st1, res1⟩
  have hz1 := zipStage_preserves env inputFile st
  rw [hz] at hz1
  cases res1 with
  | error e => simpa using hz1
  | ok v =>
    rcases v with ⟨processable, ext⟩
    rcases hc : convertStage env processable ext st1 with ⟨st2, res2⟩
    have hc1 := convertStage_preserves env processable ext st1
    rw [hc] at hc1
    cases res2 with
    | error e =>
      dsimp only
      rw [hc]
      exact ⟨hc1.1.trans hz1.1, hc1.2.trans hz1.2⟩
    | ok finalStl =>
      have ho1 := orientStage_preserves env finalStl st2
      dsimp only
      rw [hc]
      exact ⟨(ho1.1.trans hc1.1).trans hz1.1, (ho1.2.trans hc1.2).trans hz1.2⟩

/-- The measurement stage always records the parsed dimensions, and when
they exceed the build volume of the technology the stage fails with the
too large error without starting the slicer export. -/
theorem measureAndSlice_spec (env : SliceEnv) (technology : Tech) (layerHeight : Rat)
    (processableFile : String) (st0 : PipeSt) :
    (measureAndSlice env technology layerHeight processableFile st0).1.measured =
      some (getModelInfo env) ∧
    (((MAX_BUILD_VOLUMES technology).x < (getModelInfo env).1 ∨
        (MAX_BUILD_VOLUMES technology).y < (getModelInfo env).2.1 ∨
        (MAX_BUILD_VOLUMES technology).z < (getModelInfo env).2.2) →
      (measureAndSlice env technology layerHeight processableFile st0).2 =
        Except.error (PipeErr.tooLarge (getModelInfo env).1 (getModelInfo env).2.1
          (getModelInfo env).2.2 technology) ∧
      (measureAndSlice env technology layerHeight processableFile st0).1.exportLaunched =
        st0.exportLaunched) := by
  unfold measureAndSlice
  split
  · exact ⟨rfl, fun _ => ⟨rfl, rfl⟩⟩
  · next hnex =>
    split
    · split
      · exact ⟨rfl, fun hex => absurd hex hnex⟩
      · exact ⟨rfl, fun hex => absurd hex hnex⟩
    · exact ⟨rfl, fun hex => absurd hex hnex⟩

/-- A success envelope is only written when the try block returned print
statistics. -/
theorem finishSlice_success_shape (pricing : Pricing) (technology : Tech) (material : String)
    (infillPercentage : String) (body : PipeSt × Except PipeErr (PrintStats × String × String))
    (h : (finishSlice pricing technology material infillPercentage body).resp.success = some true) :
    ∃ stF stats outputFilename outputPath,
      body = (stF, Except.ok (stats, outputFilename, outputPath)) := by
  rcases body with ⟨stF, res⟩
  cases res with
  | ok v =>
    rcases v with ⟨stats, name, path⟩
    exact ⟨stF, stats, name, path, rfl⟩
  | error e =>
    exfalso
    cases e with
    | tooLarge x y z t => simp [finishSlice] at h
    | cmdFailed g => cases g <;> simp [finishSlice] at h
    | zipNoSupported => simp [finishSlice] at h
    | missingConfig => simp [finishSlice] at h

/-- Every success response carries the computed technology, the material
fallback, the clamped infill rendering, the looked up hourly rate, and
statistics priced by the estimator. -/
theorem processSlice_success_shape (req : SliceRequest) (forced : Option Tech) (env : SliceEnv)
    (h : (processSlice req forced env).resp.success = some true) :
    ∃ lh, normalizeLayerHeight req.layerHeight = some lh ∧
      (processSlice req forced env).technology
        = some (forced.getD (if lh ≤ 0.05 then Tech.SLA else Tech.FDM)) ∧
      (processSlice req forced env).resp.technology
        = some (forced.getD (if lh ≤ 0.05 then Tech.SLA else Tech.FDM)) ∧
      (processSlice req forced env).resp.material = some (jsOr req.material "PLA") ∧
      (processSlice req forced env).resp.infill
        = some (toString (max 0 (min 100 ((jsParseInt req.infill).getD 20))) ++ "%") ∧
      (processSlice req forced env).resp.hourlyRate
        = some (getRate env.pricing (forced.getD (if lh ≤ 0.05 then Tech.SLA else Tech.FDM))
            (jsOr req.material "PLA")) ∧
      ∃ st, (processSlice req forced env).resp.stats = some st ∧
        st.estimatedPriceHuf = totalPriceHuf st.printTimeSeconds
          (getRate env.pricing (forced.getD (if lh ≤ 0.05 then Tech.SLA else Tech.FDM))
            (jsOr req.material "PLA")) := by
  by_cases hf : req.hasFile = true
  case neg =>
    exfalso
    simp only [processSlice, hf] at h
    simp at h
  case pos =>
    rcases hlh : normalizeLayerHeight req.layerHeight with _ | lh
    case none =>
      exfalso
      simp only [processSlice, hf, hlh] at h
      simp at h
    case some =>
      refine ⟨lh, rfl, ?_⟩
      rcases hinf : jsParseInt req.infill with _ | v <;>
      · simp only [processSlice, hf, hlh, hinf, if_true] at h ⊢
        by_cases hv : (forced.isSome = true ∧
          validateLayerHeightForTechnology
            (forced.getD (if lh ≤ 0.05 then Tech.SLA else Tech.FDM)) lh = false)
        · rw [if_pos hv] at h
          simp at h
        · rw [if_neg hv] at h ⊢
          obtain ⟨stF, stats, name, path, hbody⟩ := finishSlice_success_shape _ _ _ _ _ h
          rw [hbody] at h ⊢
          simp [finishSlice, Option.getD]

/-- The response assembly always reports the technology of the request. -/
theorem finishSlice_technology (pricing : Pricing) (technology : Tech) (material : String)
    (infill : String) (body : PipeSt × Except PipeErr (PrintStats × String × String)) :
    (finishSlice pricing technology material infill body).technology = some technology := by
  rcases body with ⟨stF, res⟩
  cases res with
  | ok v => rfl
  | error e => cases e <;> rfl

/-- The response assembly passes the measured dimensions through. -/
theorem finishSlice_measured (pricing : Pricing) (technology : Tech) (material : String)
    (infill : String) (body : PipeSt × Except PipeErr (PrintStats × String × String)) :
    (finishSlice pricing technology material infill body).measured = body.1.measured := by
  rcases body with ⟨stF, res⟩
  cases res with
  | ok v => rfl
  | error e => cases e <;> rfl

/-- The response assembly passes the export flag through. -/
theorem finishSlice_exportLaunched (pricing : Pricing) (technology : Tech) (material : String)
    (infill : String) (body : PipeSt × Except PipeErr (PrintStats × String × String)) :
    (finishSlice pricing technology material infill body).exportLaunched =
      body.1.exportLaunched := by
  rcases body with ⟨stF, res⟩
  cases res with
  | ok v => rfl
  | error e => cases e <;> rfl

/-- The catch branch maps the build volume error to the 400 response with
the model exceeds build volume code. -/
theorem finishSlice_tooLarge (pricing : Pricing) (technology : Tech) (material : String)
    (infill : String) (stF : PipeSt) (x y z : Rat) (t : Tech) :
    (finishSlice pricing technology material infill
      (stF, Except.error (PipeErr.tooLarge x y z t))).resp.status = 400 ∧
    (finishSlice pricing technology material infill
      (stF, Except.error (PipeErr.tooLarge x y z t))).resp.errorCode =
        some "MODEL_EXCEEDS_BUILD_VOLUME" := ⟨rfl, rfl⟩

/-- When the try block measured dimensions that exceed the build volume
of the technology, it failed with exactly the build volume error and
never started the slicer export. -/
theorem runBody_volume (env : SliceEnv) (technology : Tech) (layerHeight : Rat)
    (inputFile : String) (st0 : PipeSt)
    (h0 : st0.exportLaunched = false) (hm0 : st0.measured = none)
    (x y z : Rat)
    (hm : (runBody env technology layerHeight inputFile st0).1.measured = some (x, y, z))
    (hex : (MAX_BUILD_VOLUMES technology).x < x ∨ (MAX_BUILD_VOLUMES technology).y < y ∨
      (MAX_BUILD_VOLUMES technology).z < z) :
    (runBody env technology layerHeight inputFile st0).2 =
      Except.error (PipeErr.tooLarge x y z technology) ∧
    (runBody env technology layerHeight inputFile st0).1.exportLaunched = false := by
  unfold runBody at hm ⊢
  rcases hacq : acquireMesh env inputFile st0 with ⟨st1, res1⟩
  have hpres := acquireMesh_preserves env inputFile st0
  rw [hacq] at hpres
  cases res1 with
  | error e =>
    exfalso
    rw [hacq] at hm
    dsimp only at hm hpres
    rw [hpres.2, hm0] at hm
    exact Option.noConfusion hm
  | ok processable =>
    rw [hacq] at hm
    dsimp only at hm hpres ⊢
    have hspec := measureAndSlice_spec env technology layerHeight processable st1
    have hdims : getModelInfo env = (x, y, z) := by
      rw [hspec.1] at hm
      exact Option.some.inj hm
    have hex' : (MAX_BUILD_VOLUMES technology).x < (getModelInfo env).1 ∨
        (MAX_BUILD_VOLUMES technology).y < (getModelInfo env).2.1 ∨
        (MAX_BUILD_VOLUMES technology).z < (getModelInfo env).2.2 := by
      rw [hdims]
      exact hex
    obtain ⟨herr, hexp⟩ := hspec.2 hex'
    refine ⟨?_, ?_⟩
    · rw [herr, hdims]
    · rw [hexp, hpres.1, h0]

/-- C1: every slice request that reaches pricing is billed at the
ceiling to the next ten of billable hours times the hourly rate, billable
hours are floored at one quarter hour so zero print seconds bill a
quarter hour, and the resulting price is divisible by ten and at least
billable hours times the rate. -/
theorem C1_estimated_price :
    (∀ (req : SliceRequest) (forced : Option Tech) (env : SliceEnv) (t : Tech) (m : String)
      (st : PrintStats),
      (processSlice req forced env).resp.success = some true →
      (processSlice req forced env).technology = some t →
      (processSlice req forced env).resp.material = some m →
      (processSlice req forced env).resp.stats = some st →
      st.estimatedPriceHuf =
        ratCeil (max ((st.printTimeSeconds : Rat) / 3600) (1 / 4) * getRate env.pricing t m / 10)
          * 10) ∧
    calcHours 0 = 1 / 4 ∧
    (∀ s : Int, s ≤ 0 → calcHours s = 1 / 4) ∧
    (∀ (s : Int) (rate : Rat), (10 : Int) ∣ totalPriceHuf s rate) ∧
    (∀ (s : Int) (rate : Rat), calcHours s * rate ≤ (totalPriceHuf s rate : Rat)) := by
  refine ⟨?_, ?_, ?_, ?_, ?_⟩
  · intro req forced env t m st hs ht hm hstats
    obtain ⟨lh, hlh, htech, _, hmat, _, _, st0, hst0, hprice⟩ :=
      processSlice_success_shape req forced env hs
    rw [htech] at ht
    have htt := Option.some.inj ht
    rw [hmat] at hm
    have hmm := Option.some.inj hm
    rw [hst0] at hstats
    have hss := Option.some.inj hstats
    subst hss
    rw [hprice, ← htt, ← hmm]
    rw [totalPriceHuf, calcHours]
  · rw [calcHours]
    norm_num
  · intro s hs
    rw [calcHours]
    have h1 : (s : Rat) ≤ 0 := by exact_mod_cast hs
    have h2 : (s : Rat) / 3600 ≤ 1 / 4 := by
      have : (s : Rat) / 3600 ≤ 0 := div_nonpos_of_nonpos_of_nonneg h1 (by norm_num)
      linarith
    exact max_eq_right h2
  · intro s rate
    exact ⟨ratCeil (calcHours s * rate / 10), mul_comm _ _⟩
  · intro s rate
    rw [totalPriceHuf, ratCeil_eq]
    push_cast
    have h1 : calcHours s * rate / 10 ≤ (⌈calcHours s * rate / 10⌉ : Rat) := Int.le_ceil _
    have h2 : calcHours s * rate / 10 * 10 ≤ (⌈calcHours s * rate / 10⌉ : Rat) * 10 :=
      mul_le_mul_of_nonneg_right h1 (by norm_num)
    calc calcHours s * rate = calcHours s * rate / 10 * 10 := by
          rw [div_mul_cancel₀ _ (by norm_num : (10 : Rat) ≠ 0)]
    _ ≤ _ := h2

/-- Witness for C1: the happy path FDM request is billed 1350 forint for
5400 seconds at the PETG rate of 900. -/
theorem C1_estimated_price_witness :
    (processSlice sampleReq (some Tech.FDM) sampleEnv).resp.success = some true ∧
    (processSlice sampleReq (some Tech.FDM) sampleEnv).technology = some Tech.FDM ∧
    (processSlice sampleReq (some Tech.FDM) sampleEnv).resp.material = some "PETG" ∧
    (processSlice sampleReq (some Tech.FDM) sampleEnv).resp.stats =
      some { printTimeSeconds := 5400, printTimeReadable := "1h 30m "
             materialUsedM := 12.45, objectHeightMm := 50, estimatedPriceHuf := 1350 } ∧
    (1350 : Int) =
      ratCeil (max ((5400 : Rat) / 3600) (1 / 4) * getRate sampleEnv.pricing Tech.FDM "PETG" / 10)
        * 10 := by
  have hs : (processSlice sampleReq (some Tech.FDM) sampleEnv).resp.success = some true := by
    with_unfolding_all rfl
  have ht : (processSlice sampleReq (some Tech.FDM) sampleEnv).technology = some Tech.FDM := by
    with_unfolding_all rfl
  have hm : (processSlice sampleReq (some Tech.FDM) sampleEnv).resp.material = some "PETG" := by
    with_unfolding_all rfl
  have hst : (processSlice sampleReq (some Tech.FDM) sampleEnv).resp.stats =
      some { printTimeSeconds := 5400, printTimeReadable := "1h 30m "
             materialUsedM := 12.45, objectHeightMm := 50, estimatedPriceHuf := 1350 } := by
    with_unfolding_all rfl
  exact ⟨hs, ht, hm, hst,
    C1_estimated_price.1 sampleReq (some Tech.FDM) sampleEnv Tech.FDM "PETG" _ hs ht hm hst⟩

/-- C2: whenever the measured dimensions of a slice request exceed the
build volume of the technology of the route on any axis, the response is
the 400 model exceeds build volume rejection and the slicer export
invocation is never launched. -/
theorem C2_build_volume_rejection (req : SliceRequest) (forced : Option Tech) (env : SliceEnv)
    (x y z : Rat) (t : Tech)
    (hm : (processSlice req forced env).measured = some (x, y, z))
    (ht : (processSlice req forced env).technology = some t)
    (hex : (MAX_BUILD_VOLUMES t).x < x ∨ (MAX_BUILD_VOLUMES t).y < y ∨
      (MAX_BUILD_VOLUMES t).z < z) :
    (processSlice req forced env).resp.status = 400 ∧
    (processSlice req forced env).resp.errorCode = some "MODEL_EXCEEDS_BUILD_VOLUME" ∧
    (processSlice req forced env).exportLaunched = false := by
  by_cases hf : req.hasFile = true
  case neg =>
    exfalso
    simp only [processSlice, hf] at hm
    simp at hm
  case pos =>
    rcases hlh : normalizeLayerHeight req.layerHeight with _ | lh
    case none =>
      exfalso
      simp only [processSlice, hf, hlh] at hm
      simp at hm
    case some =>
      simp only [processSlice, hf, hlh, if_true] at hm ht ⊢
      by_cases hv : (forced.isSome = true ∧
        validateLayerHeightForTechnology
          (forced.getD (if lh ≤ 0.05 then Tech.SLA else Tech.FDM)) lh = false)
      · rw [if_pos hv] at hm
        exfalso
        simp at hm
      · rw [if_neg hv] at hm ht ⊢
        rw [finishSlice_technology] at ht
        have htt := Option.some.inj ht
        subst htt
        rw [finishSlice_measured] at hm
        obtain ⟨herr, hexp⟩ := runBody_volume _ _ lh _ _ rfl rfl x y z hm hex
        have hbody : runBody env (forced.getD (if lh ≤ 0.05 then Tech.SLA else Tech.FDM)) lh
            (req.filePath ++ extnameJs (toLowerStr req.originalName))
            { created := [req.filePath ++ extnameJs (toLowerStr req.originalName)]
              cleanup := [req.filePath ++ extnameJs (toLowerStr req.originalName)]
              exportLaunched := false, measured := none } =
            ((runBody env (forced.getD (if lh ≤ 0.05 then Tech.SLA else Tech.FDM)) lh
              (req.filePath ++ extnameJs (toLowerStr req.originalName))
              { created := [req.filePath ++ extnameJs (toLowerStr req.originalName)]
                cleanup := [req.filePath ++ extnameJs (toLowerStr req.originalName)]
                exportLaunched := false, measured := none }).1,
              Except.error (PipeErr.tooLarge x y z
                (forced.getD (if lh ≤ 0.05 then Tech.SLA else Tech.FDM)))) := by
          rw [← herr]
        rw [hbody]
        refine ⟨rfl, rfl, ?_⟩
        rw [finishSlice_exportLaunched]
        exact hexp

/-- Witness for C2: a model measured at height 300 on the FDM route is
rejected with 400 and the export is never launched. -/
theorem C2_build_volume_rejection_witness :
    (processSlice sampleReq (some Tech.FDM) oversizeEnv).measured = some (100, 100, 300) ∧
    (processSlice sampleReq (some Tech.FDM) oversizeEnv).technology = some Tech.FDM ∧
    (MAX_BUILD_VOLUMES Tech.FDM).z < 300 ∧
    (processSlice sampleReq (some Tech.FDM) oversizeEnv).resp.status = 400 ∧
    (processSlice sampleReq (some Tech.FDM) oversizeEnv).resp.errorCode =
      some "MODEL_EXCEEDS_BUILD_VOLUME" ∧
    (processSlice sampleReq (some Tech.FDM) oversizeEnv).exportLaunched = false := by
  have hm : (processSlice sampleReq (some Tech.FDM) oversizeEnv).measured =
      some (100, 100, 300) := by with_unfolding_all rfl
  have ht : (processSlice sampleReq (some Tech.FDM) oversizeEnv).technology =
      some Tech.FDM := by with_unfolding_all rfl
  have hz : (MAX_BUILD_VOLUMES Tech.FDM).z < 300 := by with_unfolding_all rfl
  obtain ⟨h1, h2, h3⟩ := C2_build_volume_rejection sampleReq (some Tech.FDM) oversizeEnv
    100 100 300 Tech.FDM hm ht (Or.inr (Or.inr hz))
  exact ⟨hm, ht, hz, h1, h2, h3⟩

/-- C4: evaluation of the handler at the failing input. A request whose
layerHeight field is the string 0 is rejected with the 400 invalid layer
height response, but cleanup never runs: the renamed upload file is on
the cleanup list and still on disk when the response is written,
contradicting the claim that every cleanup list entry is removed on
every exit path. By contrast, on the build volume exception path of the
same environment cleanup does run and nothing on the list remains. -/
theorem C4_cleanup_skipped_on_validation_exit :
    (processSlice sampleReqBadLayer (some Tech.FDM) sampleEnv).resp.status = 400 ∧
    (processSlice sampleReqBadLayer (some Tech.FDM) sampleEnv).resp.errorCode =
      some "INVALID_LAYER_HEIGHT" ∧
    (processSlice sampleReqBadLayer (some Tech.FDM) sampleEnv).cleanupList =
      ["input/u2.stl"] ∧
    (processSlice sampleReqBadLayer (some Tech.FDM) sampleEnv).cleanupRan = false ∧
    (processSlice sampleReqBadLayer (some Tech.FDM) sampleEnv).remaining =
      ["input/u2.stl"] ∧
    (processSlice sampleReq (some Tech.FDM) oversizeEnv).cleanupRan = true ∧
    (processSlice sampleReq (some Tech.FDM) oversizeEnv).remaining = [] := by
  refine ⟨?_, ?_, ?_, ?_, ?_, ?_, ?_⟩ <;> with_unfolding_all rfl

/-- C10: on every route, a success response echoes the provided material
unchanged and falls back to PLA when the field is absent or empty, the
infill defaults to 20 when the field is absent or not parseable, and the
reported infill is always the clamped integer between 0 and 100 followed
by a percent sign. -/
theorem C10_material_and_infill_defaults (req : SliceRequest) (forced : Option Tech)
    (env : SliceEnv)
    (h : (processSlice req forced env).resp.success = some true) :
    ((req.material = none ∨ req.material = some "") →
      (processSlice req forced env).resp.material = some "PLA") ∧
    (∀ s, req.material = some s → s ≠ "" →
      (processSlice req forced env).resp.material = some s) ∧
    (jsParseInt req.infill = none →
      (processSlice req forced env).resp.infill = some "20%") ∧
    (∃ n : Int, 0 ≤ n ∧ n ≤ 100 ∧
      n = max 0 (min 100 ((jsParseInt req.infill).getD 20)) ∧
      (processSlice req forced env).resp.infill = some (toString n ++ "%")) := by
  obtain ⟨lh, _, _, _, hmat, hinf, _⟩ := processSlice_success_shape req forced env h
  refine ⟨?_, ?_, ?_, ?_⟩
  · intro hcase
    rw [hmat]
    rcases hcase with hc | hc <;> rw [hc] <;> rfl
  · intro s hsome hne
    rw [hmat, hsome]
    simp [jsOr, hne]
  · intro hnone
    rw [hinf, hnone]
    rfl
  · refine ⟨max 0 (min 100 ((jsParseInt req.infill).getD 20)), le_max_left 0 _, ?_, rfl, hinf⟩
    have h1 : min 100 ((jsParseInt req.infill).getD 20) ≤ 100 := min_le_left _ _
    omega

/-- Witness for C10: a request without material and infill fields
answers with material PLA and infill twenty percent. -/
theorem C10_material_and_infill_defaults_witness :
    (processSlice sampleReqDefaults none sampleEnv).resp.success = some true ∧
    (processSlice sampleReqDefaults none sampleEnv).resp.material = some "PLA" ∧
    (processSlice sampleReqDefaults none sampleEnv).resp.infill = some "20%" := by
  have hs : (processSlice sampleReqDefaults none sampleEnv).resp.success = some true := by
    with_unfolding_all rfl
  obtain ⟨hpla, _, hinf, _⟩ := C10_material_and_infill_defaults sampleReqDefaults none
    sampleEnv hs
  exact ⟨hs, hpla (Or.inl rfl), hinf rfl⟩

/-- String concatenation is associative. -/
theorem strAppend_assoc (a b c : String) : a ++ b ++ c = a ++ (b ++ c) := by
  rcases a with ⟨la⟩
  rcases b with ⟨lb⟩
  rcases c with ⟨lc⟩
  show String.mk (la ++ lb ++ lc) = String.mk (la ++ (lb ++ lc))
  rw [List.append_assoc]

/-- C8: for an SLA request with positive object height and no slicer
time, the estimate is 120 seconds plus 11 seconds per layer with the
layer count the ceiling of height over the floored layer height, the
readable string carries the estimate suffix, and the 8.5 millimeter model
at layer height 0.05 yields 1990 seconds readable as 0h 33m estimated. -/
theorem C8_sla_time_estimate (layerHeight knownHeight : Rat) (outputExists : Bool)
    (scan : FdmScan) (h : 0 < knownHeight) :
    ((parseOutputDetailed Tech.SLA outputExists scan layerHeight knownHeight).printTimeSeconds =
      120 + ratCeil (knownHeight / max layerHeight 0.025) * 11 ∧
    ∃ pre, (parseOutputDetailed Tech.SLA outputExists scan layerHeight
      knownHeight).printTimeReadable = pre ++ "(Est.)") ∧
    (parseOutputDetailed Tech.SLA false ⟨none, none, none⟩ 0.05 8.5).printTimeSeconds = 1990 ∧
    (parseOutputDetailed Tech.SLA false ⟨none, none, none⟩ 0.05 8.5).printTimeReadable =
      "0h 33m (Est.)" := by
  refine ⟨?_, by with_unfolding_all rfl, by with_unfolding_all rfl⟩
  have hpos : 0 < ratCeil (knownHeight / max layerHeight 0.025) := by
    rw [ratCeil_eq, Int.ceil_pos]
    exact div_pos h (lt_of_lt_of_le (by norm_num) (le_max_right layerHeight 0.025))
  have hspos : 0 < 120 + ratCeil (knownHeight / max layerHeight 0.025) * 11 := by omega
  simp only [parseOutputDetailed]
  simp only [show (Tech.SLA = Tech.FDM ∧ outputExists = true) = False from by simp, if_false]
  simp only [eq_self_iff_true, true_and, h, if_true]
  simp only [hspos, if_true]
  refine ⟨trivial,
    ⟨toString ((120 + ratCeil (knownHeight / max layerHeight 0.025) * 11).fdiv 3600) ++ "h " ++
      toString (((120 + ratCeil (knownHeight / max layerHeight 0.025) * 11).tmod 3600).fdiv 60) ++
      "m ", ?_⟩⟩
  simp [strAppend_assoc]

/-- Witness for C8: the theorem applied at height 8.5 and layer height
0.05 gives the estimate of the scenario. -/
theorem C8_sla_time_estimate_witness :
    (0 : Rat) < 8.5 ∧
    (parseOutputDetailed Tech.SLA false ⟨none, none, none⟩ 0.05 8.5).printTimeSeconds =
      120 + ratCeil ((8.5 : Rat) / max 0.05 0.025) * 11 := by
  have h : (0 : Rat) < 8.5 := by with_unfolding_all rfl
  exact ⟨h, (C8_sla_time_estimate 0.05 8.5 false ⟨none, none, none⟩ h).1.1⟩

/-- Replacing a technology map and reading it back. -/
theorem Pricing.tech_setTech (p : Pricing) (t : Tech) (x : RateMap) :
    (p.setTech t x).tech t = x := by
  cases t <;> rfl

/-- A stored rate map whose rates are all positive yields a positive
effective rate for every material. -/
theorem getRate_pos (p : Pricing) (t : Tech) (m : String)
    (hpos : ∀ kv ∈ p.tech t, 0 < kv.2) : 0 < getRate p t m := by
  unfold getRate
  rcases hl : lookupExact (p.tech t) m with _ | v
  case some =>
    simp only [hl]
    unfold lookupExact at hl
    rcases hf : (p.tech t).find? (fun kv => kv.1 = m) with _ | kv
    · rw [hf] at hl
      exact absurd hl (by simp)
    · rw [hf] at hl
      have hv : kv.2 = v := by
        simpa using hl
      rw [← hv]
      exact hpos kv (List.mem_of_find?_eq_some hf)
  case none =>
    rcases hp : firstPosRate ((p.tech t).map (fun kv => kv.2)) with _ | v
    · simp only [hl, hp]
      cases t
      case FDM =>
        have hd : (firstPosRate ((DEFAULT_PRICING.tech Tech.FDM).map (fun kv => kv.2))).getD 0
            = 800 := by with_unfolding_all rfl
        rw [hd]
        norm_num
      case SLA =>
        have hd : (firstPosRate ((DEFAULT_PRICING.tech Tech.SLA).map (fun kv => kv.2))).getD 0
            = 1800 := by with_unfolding_all rfl
        rw [hd]
        norm_num
    · simp only [hl, hp]
      have := List.find?_some hp
      exact of_decide_eq_true this

/-- C6: the effective rate is the exact stored match when present, then
the first positive stored rate, then the first positive default rate,
then zero; creating a fresh material makes its lookup return the new
price, and after deleting a material the lookup still returns a positive
fallback. -/
theorem C6_getRate_resolution :
    (∀ (p : Pricing) (t : Tech) (m : String) (v : Rat),
      lookupExact (p.tech t) m = some v → getRate p t m = v) ∧
    (∀ (p : Pricing) (t : Tech) (m : String) (v : Rat),
      lookupExact (p.tech t) m = none →
      firstPosRate ((p.tech t).map (fun kv => kv.2)) = some v → getRate p t m = v) ∧
    (∀ (p : Pricing) (t : Tech) (m : String),
      lookupExact (p.tech t) m = none →
      firstPosRate ((p.tech t).map (fun kv => kv.2)) = none →
      getRate p t m =
        (firstPosRate ((DEFAULT_PRICING.tech t).map (fun kv => kv.2))).getD 0) ∧
    (∀ (p : Pricing) (t : Tech) (m : String) (price : Rat),
      findMaterialKey p t m = none →
      getRate (updateMaterialPrice p t m price).1 t m = price) ∧
    (∀ (p : Pricing) (t : Tech) (m k : String),
      findMaterialKey p t m = some k →
      (∀ kv ∈ p.tech t, 0 < kv.2) →
      0 < getRate (removeMaterial p t k) t m) := by
  refine ⟨?_, ?_, ?_, ?_, ?_⟩
  · intro p t m v h
    simp only [getRate, h]
  · intro p t m v h1 h2
    simp only [getRate, h1, h2]
  · intro p t m h1 h2
    simp only [getRate, h1, h2]
  · intro p t m price hnone
    have hfind : (p.tech t).find? (fun kv => toLowerStr kv.1 = toLowerStr m) = none := by
      simp only [findMaterialKey] at hnone
      exact Option.map_eq_none'.mp hnone
    have hnoexact : (p.tech t).find? (fun kv => kv.1 = m) = none := by
      rw [List.find?_eq_none] at hfind ⊢
      intro kv hkv hdec
      have h1 : kv.1 = m := by simpa using hdec
      have := hfind kv hkv
      rw [h1] at this
      simp at this
    have hany : (p.tech t).any (fun kv => kv.1 = m) = false := by
      rw [List.any_eq_false]
      rw [List.find?_eq_none] at hnoexact
      intro kv hkv
      simpa using hnoexact kv hkv
    unfold updateMaterialPrice
    rw [hnone]
    simp only [Option.getD_none]
    unfold getRate
    rw [Pricing.tech_setTech]
    unfold setKey
    rw [hany]
    simp only [Bool.false_eq_true, if_false]
    have hlook : lookupExact (p.tech t ++ [(m, price)]) m = some price := by
      unfold lookupExact
      rw [List.find?_append, hnoexact]
      simp
    rw [hlook]
  · intro p t m k hfk hpos
    apply getRate_pos
    intro kv hkv
    rw [removeMaterial, Pricing.tech_setTech] at hkv
    exact hpos kv (List.mem_of_mem_filter hkv)

/-- Witness for C6: in the seeded registry PETG resolves at 900, creating
ASA at 1200 makes its lookup return 1200, and deleting PETG leaves the
lookup of PETG positive. -/
theorem C6_getRate_resolution_witness :
    lookupExact (DEFAULT_PRICING.tech Tech.FDM) "PETG" = some 900 ∧
    getRate DEFAULT_PRICING Tech.FDM "PETG" = 900 ∧
    findMaterialKey DEFAULT_PRICING Tech.FDM "ASA" = none ∧
    getRate (updateMaterialPrice DEFAULT_PRICING Tech.FDM "ASA" 1200).1 Tech.FDM "ASA" = 1200 ∧
    findMaterialKey DEFAULT_PRICING Tech.FDM "PETG" = some "PETG" ∧
    0 < getRate (removeMaterial DEFAULT_PRICING Tech.FDM "PETG") Tech.FDM "PETG" := by
  have h1 : lookupExact (DEFAULT_PRICING.tech Tech.FDM) "PETG" = some 900 := by
    with_unfolding_all rfl
  have h3 : findMaterialKey DEFAULT_PRICING Tech.FDM "ASA" = none := by
    with_unfolding_all rfl
  have h5 : findMaterialKey DEFAULT_PRICING Tech.FDM "PETG" = some "PETG" := by
    with_unfolding_all rfl
  have hpos : ∀ kv ∈ DEFAULT_PRICING.tech Tech.FDM, 0 < kv.2 := by
    intro kv hkv
    have hkv2 : kv ∈ [(("PLA" : String), (800 : Rat)), ("ABS", 800), ("PETG", 900),
      ("TPU", 900)] := hkv
    fin_cases hkv2 <;> with_unfolding_all rfl
  exact ⟨h1, C6_getRate_resolution.1 DEFAULT_PRICING Tech.FDM "PETG" 900 h1, h3,
    C6_getRate_resolution.2.2.2.1 DEFAULT_PRICING Tech.FDM "ASA" 1200 h3, h5,
    C6_getRate_resolution.2.2.2.2 DEFAULT_PRICING Tech.FDM "PETG" "PETG" h5 hpos⟩

/-- Left to right digit accumulation with an explicit seed. -/
def digitsFold (a : Nat) (ds : List Char) : Nat :=
  ds.foldl (fun x c => x * 10 + digitVal c) a

/-- While a digit run is live, the scanner accumulates it and returns it
at the unit character. -/
theorem findUnitGo_digits_then_unit (c : Char) (hc : c.isDigit = false) :
    ∀ (ds : List Char) (a : Nat) (rest : List Char), (∀ d ∈ ds, d.isDigit = true) →
      findUnitGo c (some a) (ds ++ (c :: rest)) = some (digitsFold a ds) := by
  intro ds
  induction ds with
  | nil =>
    intro a rest _
    simp [findUnitGo, hc, digitsFold]
  | cons d ds ih =>
    intro a rest hall
    have hd : d.isDigit = true := hall d (List.mem_cons_self d ds)
    simp only [List.cons_append, findUnitGo, hd, if_true, Option.getD_some]
    exact ih (a * 10 + digitVal d) rest (fun x hx => hall x (List.mem_cons_of_mem d hx))

/-- A nonempty digit run immediately followed by the unit character is
found from the idle state and yields the run value. -/
theorem findUnitGo_entry (c : Char) (hc : c.isDigit = false) (d : Char) (ds rest : List Char)
    (hd : d.isDigit = true) (hall : ∀ x ∈ ds, x.isDigit = true) :
    findUnitGo c none ((d :: ds) ++ (c :: rest)) = some (digitsVal (d :: ds)) := by
  simp only [List.cons_append, findUnitGo, hd, if_true]
  exact findUnitGo_digits_then_unit c hc ds (none.getD 0 * 10 + digitVal d) rest hall

/-- A digit block followed by a nonmatching nondigit character is skipped
whole, whatever the current run state. -/
theorem findUnitGo_skip (c : Char) (y : Char) (hy : y.isDigit = false) (hyc : y ≠ c) :
    ∀ (ds : List Char) (r : Option Nat) (rest : List Char), (∀ x ∈ ds, x.isDigit = true) →
      findUnitGo c r (ds ++ (y :: rest)) = findUnitGo c none rest := by
  intro ds
  induction ds with
  | nil =>
    intro r rest _
    have : ¬ (y = c ∧ r ≠ none) := fun h => hyc h.1
    simp [findUnitGo, hy, this]
  | cons d ds ih =>
    intro r rest hall
    have hd : d.isDigit = true := hall d (List.mem_cons_self d ds)
    simp only [List.cons_append, findUnitGo, hd, if_true]
    exact ih _ rest (fun x hx => hall x (List.mem_cons_of_mem d hx))

/-- The full duration string used by the grammar theorem, in right
nested form: digits, the d unit, a space, digits, the h unit, a space,
digits, the m unit, a space, digits and the s unit. -/
def timeExprChars (ds hs ms ss : List Char) : List Char :=
  ds ++ ('d' :: ' ' :: (hs ++ ('h' :: ' ' :: (ms ++ ('m' :: ' ' :: (ss ++ ['s']))))))

/-- C7: the print time parser maps the full duration form to the sum of
days, hours, minutes and seconds with their unit weights, a bare integer
is seconds, and in particular 1h 30m is 5400 seconds, 90 is 90 seconds
and 1d 2h 3m 4s is 93784 seconds. -/
theorem C7_parse_time_grammar :
    (∀ (ds hs ms ss : List Char),
      ds ≠ [] → hs ≠ [] → ms ≠ [] → ss ≠ [] →
      (∀ x ∈ ds, x.isDigit = true) → (∀ x ∈ hs, x.isDigit = true) →
      (∀ x ∈ ms, x.isDigit = true) → (∀ x ∈ ss, x.isDigit = true) →
      parseTimeString ⟨timeExprChars ds hs ms ss⟩ =
        digitsVal ds * 86400 + digitsVal hs * 3600 + digitsVal ms * 60 + digitsVal ss) ∧
    parseTimeString "1h 30m" = 5400 ∧ parseTimeString "90" = 90 ∧
    parseTimeString "1d 2h 3m 4s" = 93784 := by
  refine ⟨?_, by decide, by decide, by decide⟩
  intro ds hs ms ss hd hh hm hs' had hah ham has
  obtain ⟨d0, ds0, rfl⟩ := List.exists_cons_of_ne_nil hd
  obtain ⟨h0, hs0, rfl⟩ := List.exists_cons_of_ne_nil hh
  obtain ⟨m0, ms0, rfl⟩ := List.exists_cons_of_ne_nil hm
  obtain ⟨s0, ss0, rfl⟩ := List.exists_cons_of_ne_nil hs'
  have hd0 : d0.isDigit = true := had d0 (List.mem_cons_self d0 ds0)
  have hds0 : ∀ x ∈ ds0, x.isDigit = true := fun x hx => had x (List.mem_cons_of_mem d0 hx)
  have hh0 : h0.isDigit = true := hah h0 (List.mem_cons_self h0 hs0)
  have hhs0 : ∀ x ∈ hs0, x.isDigit = true := fun x hx => hah x (List.mem_cons_of_mem h0 hx)
  have hm0 : m0.isDigit = true := ham m0 (List.mem_cons_self m0 ms0)
  have hms0 : ∀ x ∈ ms0, x.isDigit = true := fun x hx => ham x (List.mem_cons_of_mem m0 hx)
  have hsd0 : s0.isDigit = true := has s0 (List.mem_cons_self s0 ss0)
  have hss0 : ∀ x ∈ ss0, x.isDigit = true := fun x hx => has x (List.mem_cons_of_mem s0 hx)
  unfold parseTimeString timeExprChars
  rw [if_neg ?hnotall]
  case hnotall =>
    rintro ⟨hall, -⟩
    have hmem : 'd' ∈ (d0 :: ds0) ++ ('d' :: ' ' :: ((h0 :: hs0) ++ ('h' :: ' ' ::
        ((m0 :: ms0) ++ ('m' :: ' ' :: ((s0 :: ss0) ++ ['s'])))))) :=
      List.mem_append_right _ (List.mem_cons_self _ _)
    have := List.all_eq_true.mp hall 'd' hmem
    simp at this
  have hfd : findUnit 'd' ((d0 :: ds0) ++ ('d' :: ' ' :: ((h0 :: hs0) ++ ('h' :: ' ' ::
      ((m0 :: ms0) ++ ('m' :: ' ' :: ((s0 :: ss0) ++ ['s']))))))) =
      some (digitsVal (d0 :: ds0)) :=
    findUnitGo_entry 'd' (by decide) d0 ds0 _ hd0 hds0
  have hskipSpace : ∀ (c : Char), c.isDigit = false → ' ' ≠ c → ∀ rest : List Char,
      findUnitGo c none (' ' :: rest) = findUnitGo c none rest := by
    intro c hcd hcs rest
    exact findUnitGo_skip c ' ' (by decide) hcs [] none rest (by simp)
  have hfh : findUnit 'h' ((d0 :: ds0) ++ ('d' :: ' ' :: ((h0 :: hs0) ++ ('h' :: ' ' ::
      ((m0 :: ms0) ++ ('m' :: ' ' :: ((s0 :: ss0) ++ ['s']))))))) =
      some (digitsVal (h0 :: hs0)) := by
    unfold findUnit
    rw [findUnitGo_skip 'h' 'd' (by decide) (by decide) (d0 :: ds0) none _ had]
    rw [hskipSpace 'h' (by decide) (by decide)]
    exact findUnitGo_entry 'h' (by decide) h0 hs0 _ hh0 hhs0
  have hfm : findUnit 'm' ((d0 :: ds0) ++ ('d' :: ' ' :: ((h0 :: hs0) ++ ('h' :: ' ' ::
      ((m0 :: ms0) ++ ('m' :: ' ' :: ((s0 :: ss0) ++ ['s']))))))) =
      some (digitsVal (m0 :: ms0)) := by
    unfold findUnit
    rw [findUnitGo_skip 'm' 'd' (by decide) (by decide) (d0 :: ds0) none _ had]
    rw [hskipSpace 'm' (by decide) (by decide)]
    rw [findUnitGo_skip 'm' 'h' (by decide) (by decide) (h0 :: hs0) none _ hah]
    rw [hskipSpace 'm' (by decide) (by decide)]
    exact findUnitGo_entry 'm' (by decide) m0 ms0 _ hm0 hms0
  have hfs : findUnit 's' ((d0 :: ds0) ++ ('d' :: ' ' :: ((h0 :: hs0) ++ ('h' :: ' ' ::
      ((m0 :: ms0) ++ ('m' :: ' ' :: ((s0 :: ss0) ++ ['s']))))))) =
      some (digitsVal (s0 :: ss0)) := by
    unfold findUnit
    rw [findUnitGo_skip 's' 'd' (by decide) (by decide) (d0 :: ds0) none _ had]
    rw [hskipSpace 's' (by decide) (by decide)]
    rw [findUnitGo_skip 's' 'h' (by decide) (by decide) (h0 :: hs0) none _ hah]
    rw [hskipSpace 's' (by decide) (by decide)]
    rw [findUnitGo_skip 's' 'm' (by decide) (by decide) (m0 :: ms0) none _ ham]
    rw [hskipSpace 's' (by decide) (by decide)]
    exact findUnitGo_entry 's' (by decide) s0 ss0 [] hsd0 hss0
  rw [hfd, hfh, hfm, hfs]
  simp

/-- Witness for C7: single digit components give the expected weighted
sum. -/
theorem C7_parse_time_grammar_witness :
    parseTimeString ⟨timeExprChars ['1'] ['2'] ['3'] ['4']⟩ =
      digitsVal ['1'] * 86400 + digitsVal ['2'] * 3600 + digitsVal ['3'] * 60 +
        digitsVal ['4'] :=
  C7_parse_time_grammar.1 ['1'] ['2'] ['3'] ['4'] (by decide) (by decide) (by decide)
    (by decide) (by decide) (by decide) (by decide) (by decide)

/-- Reading back the bucket just written. -/
theorem getBucket_setBucket_self (st : RlState) (ip : String) (b : Bucket) :
    getBucket (setBucket st ip b) ip = some b := by
  induction st with
  | nil => simp [setBucket, getBucket]
  | cons kv rest ih =>
    by_cases h : kv.1 = ip
    · simp [setBucket, getBucket, h]
    · simp [setBucket, getBucket, h, ih]

/-- Writing one bucket leaves every other bucket unchanged. -/
theorem getBucket_setBucket_ne (st : RlState) (i : String) (b : Bucket) (ip : String)
    (h : i ≠ ip) : getBucket (setBucket st i b) ip = getBucket st ip := by
  induction st with
  | nil => simp [setBucket, getBucket, h]
  | cons kv rest ih =>
    by_cases hk : kv.1 = i
    · by_cases hkp : kv.1 = ip
      · exact absurd (hk.symm.trans hkp) h
      · simp [setBucket, getBucket, hk, hkp, h]
    · by_cases hkp : kv.1 = ip
      · have hni : ¬ (ip = i) := fun he => h he.symm
        simp [setBucket, getBucket, hk, hkp, hni]
      · simp [setBucket, getBucket, hk, hkp, ih]

/-- One limiter step for one client never touches the bucket of another
client. -/
theorem rlStep_getBucket_ne (cfg : RlConfig) (st : RlState) (now : Int) (i ip : String)
    (h : i ≠ ip) : getBucket (rlStep cfg st now i).2 ip = getBucket st ip := by
  unfold rlStep
  rcases hgb : getBucket st i with _ | cur
  · exact getBucket_setBucket_ne st i _ ip h
  · dsimp only
    split
    · exact getBucket_setBucket_ne st i _ ip h
    · split
      · rfl
      · exact getBucket_setBucket_ne st i _ ip h

/-- No request timed after the deadline is counted. -/
theorem admittedLE_deadline (cfg : RlConfig) (ip : String) (deadline : Int) :
    ∀ (es : List (Int × String)) (t : Int) (st : RlState), Chrono t es → deadline < t →
      admittedLE cfg st ip deadline es = 0 := by
  intro es
  induction es with
  | nil => intro t st _ _; rfl
  | cons e es ih =>
    rcases e with ⟨n, i⟩
    intro t st hch hdl
    rcases hch with ⟨htn, hch2⟩
    simp only [admittedLE]
    rw [if_neg (fun hcon => absurd hcon.2.2 (by omega))]
    rw [ih n _ hch2 (by omega)]

/-- Window bound: with a live bucket holding count c, at most max minus c
further requests of that client are admitted at times up to the reset. -/
theorem admittedLE_bound (cfg : RlConfig) (ip : String) :
    ∀ (es : List (Int × String)) (st : RlState) (c : Nat) (r : Int) (t : Int),
      Chrono t es → getBucket st ip = some ⟨c, r⟩ →
      admittedLE cfg st ip r es ≤ cfg.maxRequests - c := by
  intro es
  induction es with
  | nil => intro st c r t _ _; simp [admittedLE]
  | cons e es ih =>
    rcases e with ⟨n, i⟩
    intro st c r t hch hb
    rcases hch with ⟨htn, hch2⟩
    by_cases hip : i = ip
    · subst hip
      simp only [admittedLE, rlStep, hb]
      by_cases hexp : r < n
      · rw [if_pos hexp]
        rw [if_neg (fun hcon => absurd hcon.2.2 (by omega))]
        rw [admittedLE_deadline cfg i r es n _ hch2 hexp]
        omega
      · rw [if_neg hexp]
        by_cases hfull : cfg.maxRequests ≤ c
        · rw [if_pos hfull]
          rw [if_neg (fun hcon => by simpa using hcon.1)]
          have := ih st c r n hch2 hb
          simpa using this
        · rw [if_neg hfull]
          rw [if_pos (by refine ⟨by simp, by simp, by omega⟩)]
          dsimp only
          have hbs : getBucket (setBucket st i ⟨c + 1, r⟩) i = some ⟨c + 1, r⟩ :=
            getBucket_setBucket_self st i _
          have := ih (setBucket st i ⟨c + 1, r⟩) (c + 1) r n hch2 hbs
          omega
    · simp only [admittedLE]
      rw [if_neg (fun hcon => hip hcon.2.1)]
      have hpres : getBucket (rlStep cfg st n i).2 ip = getBucket st ip :=
        rlStep_getBucket_ne cfg st n i ip hip
      have := ih (rlStep cfg st n i).2 c r n hch2 (hpres.trans hb)
      simpa using this

/-- C5 counterexample: with the default window of sixty seconds and five
requests, five admissions at time zero fill the bucket; the sixth request
at exactly the reset instant is denied with retryAfterSeconds 1, while
the ceiling of the remaining window claimed by the specification is 0. -/
theorem C5_retry_after_counterexample :
    getBucket (rlRun { windowMs := 60000, maxRequests := 5 } []
      [(0, "10.0.0.1"), (0, "10.0.0.1"), (0, "10.0.0.1"), (0, "10.0.0.1"),
        (0, "10.0.0.1")]).2 "10.0.0.1" = some { count := 5, resetAt := 60000 } ∧
    (rlStep { windowMs := 60000, maxRequests := 5 }
      (rlRun { windowMs := 60000, maxRequests := 5 } []
        [(0, "10.0.0.1"), (0, "10.0.0.1"), (0, "10.0.0.1"), (0, "10.0.0.1"),
          (0, "10.0.0.1")]).2 60000 "10.0.0.1").1 = RlDecision.deny 1 ∧
    ratCeil (((60000 - 60000 : Int) : Rat) / 1000) = 0 ∧ (1 : Int) ≠ 0 := by
  refine ⟨?_, ?_, ?_, by decide⟩ <;> with_unfolding_all rfl

/-- C5 amended: per client and per fixed window at most the configured
maximum is admitted, a denial leaves the state unchanged and answers 429
with the rate limit error code and a Retry-After of the ceiling of the
remaining window seconds clamped to at least one, and after a full
window the next admission happens strictly after the reset instant. -/
theorem C5_rate_limiter_amended :
    (∀ (cfg : RlConfig) (st : RlState) (ip : String) (now : Int)
      (events : List (Int × String)),
      1 ≤ cfg.maxRequests → Chrono now events →
      (getBucket st ip = none ∨ ∃ b, getBucket st ip = some b ∧ b.resetAt < now) →
      (rlStep cfg st now ip).1 = RlDecision.pass ∧
      1 + admittedLE cfg (rlStep cfg st now ip).2 ip (now + cfg.windowMs) events ≤
        cfg.maxRequests) ∧
    (∀ (cfg : RlConfig) (st : RlState) (now : Int) (ip : String) (ra : Int),
      (rlStep cfg st now ip).1 = RlDecision.deny ra →
      (rlStep cfg st now ip).2 = st ∧
      (∃ b, getBucket st ip = some b ∧ cfg.maxRequests ≤ b.count ∧ ¬ b.resetAt < now ∧
        ra = max 1 (ratCeil (((b.resetAt - now : Int) : Rat) / 1000))) ∧
      denyResponse ra = { status := 429, errorCode := "RATE_LIMIT_EXCEEDED"
                          retryAfterSeconds := ra, retryAfterHeader := toString ra }) ∧
    (∀ (cfg : RlConfig) (st : RlState) (now : Int) (ip : String) (b : Bucket),
      getBucket st ip = some b → cfg.maxRequests ≤ b.count →
      (rlStep cfg st now ip).1 = RlDecision.pass → b.resetAt < now) := by
  refine ⟨?_, ?_, ?_⟩
  · intro cfg st ip now events hmax hch hfresh
    have hstep : rlStep cfg st now ip =
        (RlDecision.pass, setBucket st ip ⟨1, now + cfg.windowMs⟩) := by
      rcases hfresh with hnone | ⟨b, hsome, hexp⟩
      · simp only [rlStep, hnone]
      · simp only [rlStep, hsome]
        rw [if_pos hexp]
    rw [hstep]
    refine ⟨rfl, ?_⟩
    dsimp only
    have hbs : getBucket (setBucket st ip ⟨1, now + cfg.windowMs⟩) ip =
        some ⟨1, now + cfg.windowMs⟩ := getBucket_setBucket_self st ip _
    have := admittedLE_bound cfg ip events (setBucket st ip ⟨1, now + cfg.windowMs⟩)
      1 (now + cfg.windowMs) now hch hbs
    omega
  · intro cfg st now ip ra h
    rcases hgb : getBucket st ip with _ | cur
    · exfalso
      simp only [rlStep, hgb] at h
      exact RlDecision.noConfusion h
    · simp only [rlStep, hgb] at h ⊢
      by_cases hexp : cur.resetAt < now
      · rw [if_pos hexp] at h
        exact absurd h (by simp)
      · rw [if_neg hexp] at h ⊢
        by_cases hfull : cfg.maxRequests ≤ cur.count
        · rw [if_pos hfull] at h ⊢
          dsimp only at h
          injection h with hra
          exact ⟨rfl, ⟨cur, rfl, hfull, hexp, hra.symm⟩, rfl⟩
        · rw [if_neg hfull] at h
          exact absurd h (by simp)
  · intro cfg st now ip b hb hfull hadmit
    by_contra hcon
    simp only [rlStep, hb] at hadmit
    rw [if_neg hcon, if_pos hfull] at hadmit
    exact RlDecision.noConfusion hadmit

/-- Witness for C5: the amended theorem applied to the empty state admits
the first request of a client and bounds the window to the configured
five. -/
theorem C5_rate_limiter_amended_witness :
    (1 ≤ (5 : Nat)) ∧ Chrono 0 [((0 : Int), "10.0.0.9")] ∧
    getBucket ([] : RlState) "10.0.0.9" = none ∧
    ((rlStep { windowMs := 60000, maxRequests := 5 } [] 0 "10.0.0.9").1 =
      RlDecision.pass ∧
    1 + admittedLE { windowMs := 60000, maxRequests := 5 }
      (rlStep { windowMs := 60000, maxRequests := 5 } [] 0 "10.0.0.9").2 "10.0.0.9"
      (0 + 60000) [((0 : Int), "10.0.0.9")] ≤ 5) := by
  have h1 : (1 : Nat) ≤ 5 := by decide
  have h2 : Chrono 0 [((0 : Int), "10.0.0.9")] := ⟨le_refl 0, trivial⟩
  have h3 : getBucket ([] : RlState) "10.0.0.9" = none := rfl
  exact ⟨h1, h2, h3, C5_rate_limiter_amended.1 { windowMs := 60000, maxRequests := 5 } []
    "10.0.0.9" 0 [((0 : Int), "10.0.0.9")] h1 h2 (Or.inl h3)⟩

/-- C3: every uploaded archive that is encrypted, has more than the
allowed number of entries, or exceeds the cumulative uncompressed size
limit is rejected with a 400 client error before any extraction begins. -/
theorem C3_zip_guard_rejects_before_extraction (lim : ZipLimits) (a : ZipArchive)
    (h : a.encrypted = true ∨ lim.maxZipEntries < a.entries.length ∨
      lim.maxZipUncompressedBytes < zipTotalUncompressed a) :
    (zipIntake lim a).status = 400 ∧ (zipIntake lim a).extractionStarted = false := by
  have hg : zipGuardRejects lim a = true := by
    rcases h with h | h | h <;> simp [zipGuardRejects, h]
  simp [zipIntake, hg]

/-- Witness for C3: an archive with two hundred thousand entries exceeds
the entry limit and the guarded intake rejects it with 400 before
extraction. -/
theorem C3_zip_guard_rejects_before_extraction_witness :
    sampleZipLimits.maxZipEntries < bombArchive.entries.length ∧
    (zipIntake sampleZipLimits bombArchive).status = 400 ∧
    (zipIntake sampleZipLimits bombArchive).extractionStarted = false :=
  have hlen : sampleZipLimits.maxZipEntries < bombArchive.entries.length := by
    simp only [bombArchive, sampleZipLimits, List.length_replicate]
    decide
  ⟨hlen, C3_zip_guard_rejects_before_extraction sampleZipLimits bombArchive
    (Or.inr (Or.inl hlen))⟩

/-- C9: evaluation of the delete route at the failing input. Deleting the
key default in the seeded registry answers 404, not the 400 the claim
states, because the handler has no guard for the default key and the
registry holds no such key; once a material literally named default has
been created, the same delete answers 200. The absent and present
material cases behave as claimed. -/
theorem C9_delete_default_divergence :
    (deleteMaterialRoute DEFAULT_PRICING true "FDM" "default").1.status = 404 ∧
    (deleteMaterialRoute
      (updateMaterialPrice DEFAULT_PRICING Tech.FDM "default" 999).1 true "FDM" "default").1.status
        = 200 ∧
    (deleteMaterialRoute DEFAULT_PRICING true "FDM" "ASA").1.status = 404 ∧
    (deleteMaterialRoute DEFAULT_PRICING true "FDM" "PETG").1.status = 200 := by
  refine ⟨?_, ?_, ?_, ?_⟩ <;> with_unfolding_all rfl

end Slicer
